import Mathlib

/-!
nova-porta: the response-interception pipeline of `server.js`.

A shallow embedding of the two callbacks that `server.js` hands to
`createProxyMiddleware` (`onProxyRes` and `onError`) together with the small part
of the JavaScript runtime they rely on: string search and regular-expression
replacement, UTF-8 encoding and decoding of buffers, plain objects used as header
mappings, and the `writeHead` / `end` interface of the client response.

JavaScript strings are modelled as lists of Unicode code points (`List Char`).
A string obtained by decoding UTF-8 never contains a lone surrogate, and the
regular expression of `server.js` only ever compares against ASCII characters, so
nothing is lost with respect to the UTF-16 code units of the runtime.
-/

namespace NovaPorta

/-! ## Text -/

/-- JavaScript string: a sequence of code points. -/
abbrev Text := List Char

/-- Bytes of a `Buffer`; every element is meant to be below 256. -/
abbrev Bytes := List Nat

/-- The double quote character. -/
def dquote : Char := Char.ofNat 34

/-- The single quote character. -/
def squote : Char := Char.ofNat 39

/-- Canonical form of a character under the `i` flag of a non-unicode regular
expression: ASCII lower-case letters are mapped to upper case.  Characters outside
ASCII never canonicalise to an ASCII character, and the patterns of `server.js`
are ASCII only, so leaving them fixed does not change any comparison made here. -/
def canonicalize (c : Char) : Char :=
  if 97 ≤ c.toNat ∧ c.toNat ≤ 122 then Char.ofNat (c.toNat - 32) else c

/-- `String.prototype.includes` on code point lists: `sub` occurs in `s`
(case-sensitively). -/
def includes (s sub : Text) : Bool :=
  match s with
  | [] => sub.isEmpty
  | c :: t => sub.isPrefixOf (c :: t) || includes t sub

/-! ## Regular expressions

The fragment of ECMAScript regular expressions used by `server.js`: a sequence of
single-character atoms, each optionally under a greedy `*` or `+`, matched by
backtracking with the flag `i`. -/

/-- One-character atom. -/
inductive Atom where
  /-- pattern character, compared after canonicalisation -/
  | chr (c : Char)
  /-- character class `[...]` -/
  | cls (cs : List Char)
  /-- negated character class `[^...]` -/
  | ncls (cs : List Char)
deriving DecidableEq

/-- Does the atom accept the input character (flag `i`)? -/
def Atom.accepts : Atom → Char → Bool
  | .chr p, c => canonicalize c == canonicalize p
  | .cls cs, c => cs.any (fun p => canonicalize c == canonicalize p)
  | .ncls cs, c => !(cs.any (fun p => canonicalize c == canonicalize p))

/-- Atom with its quantifier. -/
inductive Item where
  | one (a : Atom)
  | star (a : Atom)
  | plus (a : Atom)
deriving DecidableEq

/-- Pattern: a concatenation of quantified atoms. -/
abbrev Regex := List Item

/-- Literal text as a pattern. -/
def lits (s : String) : Regex := s.toList.map (fun c => Item.one (Atom.chr c))

/-- Greedy repetition of atom `a` followed by the continuation `k`: take the atom
as often as possible, and give characters back one at a time while `k` fails.
The result is the number of characters consumed. -/
def starLoop (a : Atom) (k : Text → Option Nat) : Text → Option Nat
  | [] => k []
  | c :: t =>
    if a.accepts c then
      match starLoop a k t with
      | some n => some (n + 1)
      | none => k (c :: t)
    else k (c :: t)

/-- Backtracking match of a pattern at the start of the input: the number of
characters consumed by the first match in priority order, if there is one. -/
def matchLen : Regex → Text → Option Nat
  | [] => fun _ => some 0
  | .one a :: r => fun s =>
    match s with
    | [] => none
    | c :: t => if a.accepts c then (matchLen r t).map (· + 1) else none
  | .star a :: r => fun s => starLoop a (matchLen r) s
  | .plus a :: r => fun s =>
    match s with
    | [] => none
    | c :: t => if a.accepts c then (starLoop a (matchLen r) t).map (· + 1) else none

/-- Scan of `String.prototype.replace(re, "")` with a global pattern.  The first
argument counts the characters of the current match that are still to be dropped.
At a position outside a match the pattern is tried; a non-empty match is dropped
and the scan resumes right after it, otherwise the character is copied. -/
def replaceGo (re : Regex) : Nat → Text → Text
  | _, [] => []
  | k + 1, _ :: t => replaceGo re k t
  | 0, c :: t =>
    match matchLen re (c :: t) with
    | some (n + 1) => replaceGo re n t
    | _ => c :: replaceGo re 0 t

/-- Result of `s.replace(re, "")` for a global pattern `re`. -/
def replaceAll (re : Regex) (s : Text) : Text := replaceGo re 0 s

/-- The pattern
`/<meta[^>]+http-equiv=["']Content-Security-Policy["'][^>]*>/gi` of `onProxyRes`. -/
def cspMetaRegex : Regex :=
  lits "<meta" ++ [Item.plus (Atom.ncls ['>'])] ++ lits "http-equiv=" ++
  [Item.one (Atom.cls [dquote, squote])] ++ lits "Content-Security-Policy" ++
  [Item.one (Atom.cls [dquote, squote]), Item.star (Atom.ncls ['>']),
   Item.one (Atom.chr '>')]

/-- The HTML rewrite of `onProxyRes`: `html.replace(/<meta...>/gi, "")`. -/
def stripCsp (html : Text) : Text := replaceAll cspMetaRegex html

/-! ## UTF-8 -/

/-- The replacement character U+FFFD. -/
def replacementChar : Char := Char.ofNat 0xFFFD

/-- A multi-byte sequence in progress: the code point bits read so far, the
number of continuation bytes still expected, and the range allowed for the next
byte. -/
structure Pending where
  cp : Nat
  needed : Nat
  lower : Nat
  upper : Nat
deriving DecidableEq

/-- First byte of a sequence: an ASCII byte is a character, a lead byte opens a
pending sequence, anything else is replaced by U+FFFD. -/
def decodeLead (b : Nat) : List Char × Option Pending :=
  if b ≤ 0x7F then ([Char.ofNat b], none)
  else if 0xC2 ≤ b ∧ b ≤ 0xDF then ([], some ⟨b % 32, 1, 0x80, 0xBF⟩)
  else if 0xE0 ≤ b ∧ b ≤ 0xEF then
    ([], some ⟨b % 16, 2, if b = 0xE0 then 0xA0 else 0x80, if b = 0xED then 0x9F else 0xBF⟩)
  else if 0xF0 ≤ b ∧ b ≤ 0xF4 then
    ([], some ⟨b % 8, 3, if b = 0xF0 then 0x90 else 0x80, if b = 0xF4 then 0x8F else 0xBF⟩)
  else ([replacementChar], none)

/-- UTF-8 decoder with replacement of ill-formed sequences, as performed by
`buf.toString("utf8")`: a truncated or invalid sequence yields one U+FFFD and the
offending byte is read again as the start of a new sequence. -/
def decodeGo : Option Pending → Bytes → Text
  | none, [] => []
  | some _, [] => [replacementChar]
  | none, b :: bs => (decodeLead b).1 ++ decodeGo (decodeLead b).2 bs
  | some p, b :: bs =>
    if p.lower ≤ b ∧ b ≤ p.upper then
      if p.needed ≤ 1 then Char.ofNat (p.cp * 64 + b % 64) :: decodeGo none bs
      else decodeGo (some ⟨p.cp * 64 + b % 64, p.needed - 1, 0x80, 0xBF⟩) bs
    else replacementChar :: ((decodeLead b).1 ++ decodeGo (decodeLead b).2 bs)

/-- The text of `body.toString("utf8")`. -/
def decodeUtf8 (body : Bytes) : Text := decodeGo none body

/-- UTF-8 encoding of one code point. -/
def encodeChar (c : Char) : Bytes :=
  let n := c.toNat
  if n < 0x80 then [n]
  else if n < 0x800 then [0xC0 + n / 64, 0x80 + n % 64]
  else if n < 0x10000 then [0xE0 + n / 4096, 0x80 + n / 64 % 64, 0x80 + n % 64]
  else [0xF0 + n / 262144, 0x80 + n / 4096 % 64, 0x80 + n / 64 % 64, 0x80 + n % 64]

/-- The bytes written for a string body: its UTF-8 encoding. -/
def encodeUtf8 (s : Text) : Bytes := s.flatMap encodeChar

/-- Number of bytes one code point takes in UTF-8. -/
def charByteLength (c : Char) : Nat :=
  if c.toNat < 0x80 then 1 else if c.toNat < 0x800 then 2
  else if c.toNat < 0x10000 then 3 else 4

/-- The value of `Buffer.byteLength(s)`: the byte count of `s` in UTF-8, computed
by adding up the size of every code point. -/
def byteLength (s : Text) : Nat := (s.map charByteLength).sum

/-! ## Header mappings -/

/-- Value stored under a header name: a string, an array of strings (repeated
headers such as `set-cookie`), or a number (the `content-length` computed by
`onProxyRes`). -/
inductive HeaderValue where
  | str (s : String)
  | list (l : List String)
  | num (n : Nat)
deriving DecidableEq

/-- Plain object used as a header mapping: its properties in insertion order. -/
abbrev Headers := List (String × HeaderValue)

/-- Property read `headers[k]`; `none` is `undefined`. -/
def Headers.get (h : Headers) (k : String) : Option HeaderValue :=
  (h.find? (fun kv => kv.1 == k)).map (·.2)

/-- Statement `delete headers[k]`. -/
def Headers.delete (h : Headers) (k : String) : Headers :=
  h.filter (fun kv => !(kv.1 == k))

/-- Assignment `headers[k] = v`: an existing property keeps its place, a new one
is added at the end. -/
def Headers.set : Headers → String → HeaderValue → Headers
  | [], k, v => [(k, v)]
  | (k', v') :: t, k, v =>
    if k' == k then (k, v) :: t else (k', v') :: Headers.set t k v

/-- ASCII lower-casing of a character of a header name. -/
def lowerChar (c : Char) : Char :=
  if 65 ≤ c.toNat ∧ c.toNat ≤ 90 then Char.ofNat (c.toNat + 32) else c

/-- The key under which the runtime stores a header: `field.toLowerCase()`.  Header
names are ASCII tokens, so only the ASCII letters matter. -/
def lowerName (field : String) : String := String.mk (field.toList.map lowerChar)

/-- Headers of which the runtime keeps the first occurrence only. -/
def singleValued : List String :=
  ["age", "authorization", "content-length", "content-type", "etag", "expires", "from",
   "host", "if-modified-since", "if-unmodified-since", "last-modified", "location",
   "max-forwards", "proxy-authorization", "referer", "retry-after", "server", "user-agent"]

/-- One header line as the runtime adds it to `message.headers`: the name is
lower-cased; `set-cookie` collects an array, a repeated single-valued header is
dropped, and any other repeated header is joined with `, ` (`; ` for `cookie`). -/
def addHeaderLine (dest : Headers) (field value : String) : Headers :=
  let key := lowerName field
  if key = "set-cookie" then
    match dest.get key with
    | some (HeaderValue.list l) => dest.set key (HeaderValue.list (l ++ [value]))
    | _ => dest.set key (HeaderValue.list [value])
  else if key ∈ singleValued then
    match dest.get key with
    | none => dest.set key (HeaderValue.str value)
    | some _ => dest
  else
    match dest.get key with
    | some (HeaderValue.str old) =>
      dest.set key (HeaderValue.str (old ++ (if key = "cookie" then "; " else ", ") ++ value))
    | _ => dest.set key (HeaderValue.str value)

/-- The object `proxyRes.headers` that the runtime builds from the header lines the
upstream sent, names in whatever letter case. -/
def receivedHeaders (lines : List (String × String)) : Headers :=
  lines.foldl (fun dest fv => addHeaderLine dest fv.1 fv.2) []

/-! ## Exceptions and the client response -/

/-- A thrown `Error`, with its `message`. -/
structure JSError where
  message : String
deriving DecidableEq

/-- Body handed to `res.end`: a string or a buffer. -/
inductive Body where
  | text (s : Text)
  | bytes (b : Bytes)
deriving DecidableEq

/-- The bytes that reach the client for a body; strings are sent as UTF-8. -/
def Body.toBytes : Body → Bytes
  | .text s => encodeUtf8 s
  | .bytes b => b

/-- What has been written to the client. -/
inductive Call where
  | writeHead (status : Nat) (headers : Headers)
  | endBody (body : Body)
deriving DecidableEq

/-- The client response object `res` (an `http.ServerResponse`), reduced to what
the callbacks observe and cause: the `headersSent` flag and the writes that took
effect, oldest first. -/
structure ServerResponse where
  headersSent : Bool
  wire : List Call
deriving DecidableEq

/-- The call `res.writeHead(status, headers)`.  As in Node.js it throws when the
headers were already sent and when the status code is outside 100..999; otherwise
the status line and headers are written and `headersSent` becomes true.  The
check of header names and values for characters that HTTP forbids is not part of
the model: the upstream mapping comes out of the HTTP parser of the runtime. -/
def ServerResponse.writeHead (r : ServerResponse) (status : Nat) (headers : Headers) :
    Except JSError ServerResponse :=
  if r.headersSent then
    .error ⟨"Cannot write headers after they are sent to the client"⟩
  else if status < 100 ∨ 999 < status then
    .error ⟨"Invalid status code: " ++ toString status⟩
  else .ok { r with headersSent := true, wire := r.wire ++ [Call.writeHead status headers] }

/-- The call `res.end(body)` on a response whose head was just written: the body
is written and the response is complete.  Every `res.end` of `server.js` directly
follows a `res.writeHead` that did not throw. -/
def ServerResponse.endWith (r : ServerResponse) (body : Body) : ServerResponse :=
  { r with headersSent := true, wire := r.wire ++ [Call.endBody body] }

/-! ## The callbacks of `server.js` -/

/-- The upstream response `proxyRes` (an `http.IncomingMessage`). -/
structure IncomingMessage where
  statusCode : Option Nat
  headers : Headers
  destroyed : Bool
deriving DecidableEq

/-- Everything one invocation of `onProxyRes` and its closures can read or change:
the request URL, the upstream response, the client response, the local variable
`body`, whether the timer `responseTimeout` is still scheduled, and the lines
given to `console.error`. -/
structure Session where
  url : String
  proxyRes : IncomingMessage
  res : ServerResponse
  body : Bytes
  timerArmed : Bool
  log : List String
deriving DecidableEq

/-- The header object `{ "Content-Type": "text/html" }` of the error pages. -/
def errorHeaders : Headers := [("Content-Type", HeaderValue.str "text/html")]

/-- The page sent with status 504. -/
def timeoutPage : String :=
  "<h1>⚠️ Conteúdo bloqueado ou indisponível</h1><p>O site de destino não pôde ser carregado pelo proxy devido a um tempo limite da resposta.</p><p>Verifique os logs da aplicação na DigitalOcean para mais detalhes.</p>"

/-- The page sent with status 502, around the message of the exception. -/
def processingPage (message : String) : String :=
  "<h1>❌ Erro de processamento interno do proxy</h1><p>O proxy encontrou um erro ao tentar processar o conteúdo do site de destino.</p><p>Detalhes: " ++
    message ++
    "</p><p>Verifique os logs da aplicação na DigitalOcean para mais detalhes.</p>"

/-- The page sent with status 500, around the error message. -/
def serverErrorPage (errorMessage : String) : String :=
  "<h1>⚠️ Erro do Servidor do Proxy</h1><p>" ++
    errorMessage ++
    "</p><p>Verifique os logs da aplicação na DigitalOcean para mais detalhes.</p>"

/-- State set up by `onProxyRes` (lines 56-71): an empty `body`, the timer
scheduled, the listeners registered. -/
def onProxyRes (url : String) (proxyRes : IncomingMessage) (res : ServerResponse) : Session :=
  { url := url, proxyRes := proxyRes, res := res, body := [], timerArmed := true, log := [] }

/-- The callback given to `setTimeout` (lines 58-67). -/
def responseTimeout (s : Session) : Except JSError Session :=
  let s1 := { s with log := s.log ++ ["Proxy response timeout exceeded for: " ++ s.url] }
  let destroy (x : Session) : Session :=
    { x with proxyRes := { x.proxyRes with destroyed := true } }
  if !s1.res.headersSent then
    match s1.res.writeHead 504 errorHeaders with
    | .error e => .error e
    | .ok r => .ok (destroy { s1 with res := r.endWith (Body.text timeoutPage.toList) })
  else .ok (destroy s1)

/-- The listener for `data` (lines 69-71): `body = Buffer.concat([body, chunk])`. -/
def onData (s : Session) (chunk : Bytes) : Session :=
  { s with body := s.body ++ chunk }

/-- The expression `proxyRes.headers["content-type"] || ""`. -/
def contentTypeOf (h : Headers) : HeaderValue :=
  match h.get "content-type" with
  | none => HeaderValue.str ""
  | some (HeaderValue.num 0) => HeaderValue.str ""
  | some v => v

/-- The call `contentType.includes("text/html")`: substring search on a string,
membership on an array, and a `TypeError` on a number, which has no such method. -/
def includesTextHtml : HeaderValue → Except JSError Bool
  | .str s => .ok (includes s.toList "text/html".toList)
  | .list l => .ok (l.contains "text/html")
  | .num _ => .error ⟨"contentType.includes is not a function"⟩

/-- The expression `proxyRes.statusCode || 200`. -/
def statusOr200 : Option Nat → Nat
  | none => 200
  | some 0 => 200
  | some n => n

/-- The header object built on the HTML path (lines 87-98). -/
def rewriteHeaders (upstream : Headers) (contentType : HeaderValue) (html : Text) : Headers :=
  let headers := upstream
  let headers := headers.delete "x-frame-options"
  let headers := headers.delete "X-Frame-Options"
  let headers := headers.delete "content-security-policy"
  let headers := headers.delete "Content-Security-Policy"
  let headers := headers.set "content-length" (HeaderValue.num (byteLength html))
  let headers := headers.set "x-frame-options" (HeaderValue.str "")
  let headers := headers.set "content-security-policy" (HeaderValue.str "")
  headers.set "content-type" contentType

/-- The `try` block of the `end` listener (lines 77-105).  Every operation that can
throw comes before the first change of state, so the state seen by the `catch`
block is the one the `try` block started in. -/
def endTry (s : Session) : Except JSError Session :=
  let contentType := contentTypeOf s.proxyRes.headers
  match includesTextHtml contentType with
  | .error e => .error e
  | .ok true =>
    let html := stripCsp (decodeUtf8 s.body)
    let headers := rewriteHeaders s.proxyRes.headers contentType html
    match s.res.writeHead (statusOr200 s.proxyRes.statusCode) headers with
    | .error e => .error e
    | .ok r => .ok { s with res := r.endWith (Body.text html) }
  | .ok false =>
    match s.res.writeHead (statusOr200 s.proxyRes.statusCode) s.proxyRes.headers with
    | .error e => .error e
    | .ok r => .ok { s with res := r.endWith (Body.bytes s.body) }

/-- The `catch` block of the `end` listener (lines 106-119). -/
def endCatch (err : JSError) (s : Session) : Except JSError Session :=
  let s1 := { s with log := s.log ++
    ["Erro processando resposta do proxy (onProxyRes end event): " ++ err.message] }
  if !s1.res.headersSent then
    match s1.res.writeHead 502 errorHeaders with
    | .error e => .error e
    | .ok r => .ok { s1 with res := r.endWith (Body.text (processingPage err.message).toList) }
  else .ok s1

/-- The listener for `end` (lines 73-120): cancel the timer, then run the `try`
block and, if it throws, the `catch` block. -/
def onEnd (s : Session) : Except JSError Session :=
  let s0 := { s with timerArmed := false }
  match endTry s0 with
  | .ok s1 => .ok s1
  | .error err => endCatch err s0

/-- The `err` argument of `onError`: its `code`, if any, and its `message`. -/
structure ProxyError where
  code : Option String
  message : String
deriving DecidableEq

/-- The text `errorMessage` computed by `onError` (lines 124-132). -/
def errorMessageOf (err : ProxyError) : String :=
  let errorMessage := "Erro interno no proxy. "
  if err.code = some "ETIMEDOUT" then
    errorMessage ++ "A conexão com o site de destino expirou."
  else if err.code = some "ECONNREFUSED" then
    errorMessage ++ "A conexão com o site de destino foi recusada."
  else errorMessage ++ err.message

/-- The third argument of `onError`.  For an HTTP request it is the client
response; with `ws: true` (line 46) a failed WebSocket upgrade hands over the
client socket, which has no `headersSent` and no `writeHead`. -/
inductive ErrorTarget where
  | response (res : ServerResponse)
  | socket
deriving DecidableEq

/-- The callback `onError` (lines 122-142), acting on its third argument and the
log; the result pairs what became of the argument, or the exception thrown, with
the log.  On a socket `!res.headersSent` is `!undefined`, hence true, and the call
of the missing `res.writeHead` throws a `TypeError`. -/
def onError (err : ProxyError) (res : ErrorTarget) (log : List String) :
    Except JSError ErrorTarget × List String :=
  let log1 := log ++ ["Erro no proxy (onError): " ++ err.message]
  match res with
  | .socket => (.error ⟨"res.writeHead is not a function"⟩, log1)
  | .response r =>
    if !r.headersSent then
      match r.writeHead 500 errorHeaders with
      | .error e => (.error e, log1)
      | .ok r1 =>
        (.ok (.response (r1.endWith (Body.text (serverErrorPage (errorMessageOf err)).toList))),
          log1)
    else (.ok (.response r), log1)

/-! ## Events of one proxied request -/

/-- What can happen after `onProxyRes` returned: a chunk arrives, the upstream
response ends, or the 10 second timer expires. -/
inductive Event where
  | data (chunk : Bytes)
  | finish
  | timeout
deriving DecidableEq

/-- Delivery of one event.  An expired or cancelled timer does not fire; nothing
else is assumed about the order of events, in particular not that a destroyed
upstream response stays silent.  An error result is an exception that escaped a
listener. -/
def step (s : Session) : Event → Except JSError Session
  | .data chunk => .ok (onData s chunk)
  | .finish => onEnd s
  | .timeout =>
    if s.timerArmed then responseTimeout { s with timerArmed := false } else .ok s

/-- Delivery of a sequence of events, stopping at an escaped exception. -/
def run (s : Session) : List Event → Except JSError Session
  | [] => .ok s
  | e :: es =>
    match step s e with
    | .error err => .error err
    | .ok s1 => run s1 es

/-! ## Notions used to state the properties -/

/-- Language of a pattern. -/
def Matches : Regex → Text → Prop
  | [], t => t = []
  | .one a :: r, t => ∃ c t1, t = c :: t1 ∧ a.accepts c = true ∧ Matches r t1
  | .star a :: r, t => ∃ u v, t = u ++ v ∧ (∀ x ∈ u, a.accepts x = true) ∧ Matches r v
  | .plus a :: r, t =>
    ∃ c u v, t = c :: (u ++ v) ∧ a.accepts c = true ∧ (∀ x ∈ u, a.accepts x = true) ∧ Matches r v

/-- Equality up to ASCII letter case with a pattern text. -/
def ciEq (m : Text) (p : String) : Prop := m.map canonicalize = p.toList.map canonicalize

/-- One of the two quote characters. -/
def IsQuote (c : Char) : Prop := c = dquote ∨ c = squote

/-- Shape of the texts removed by the rewrite. -/
def IsCspPattern (t : Text) : Prop :=
  ∃ m a h q1 c q2 b, t = m ++ a ++ h ++ [q1] ++ c ++ [q2] ++ b ++ ['>'] ∧
    ciEq m "<meta" ∧ a ≠ [] ∧ '>' ∉ a ∧ ciEq h "http-equiv=" ∧ IsQuote q1 ∧
    ciEq c "Content-Security-Policy" ∧ IsQuote q2 ∧ '>' ∉ b

/-- Deletion of pieces that satisfy `P`: the second text is the first one with
some such pieces taken out. -/
inductive Removal (P : Text → Prop) : Text → Text → Prop where
  | done : Removal P [] []
  | keep (c : Char) {s o : Text} : Removal P s o → Removal P (c :: s) (c :: o)
  | drop (t : Text) {s o : Text} : P t → Removal P s o → Removal P (t ++ s) o

/-- No piece of the text has the removed shape. -/
def PatternFree (o : Text) : Prop := ∀ t, t <:+: o → ¬ IsCspPattern t

/-- Substring search that ignores ASCII letter case: the reading under which
`Text/HTML` would count as `text/html`. -/
def includesCI (s sub : Text) : Bool :=
  includes (s.map canonicalize) (sub.map canonicalize)

/-- Header names compared without regard to ASCII letter case. -/
def sameHeaderName (a b : String) : Bool :=
  a.toList.map canonicalize == b.toList.map canonicalize

/-- Relation between the client response before and after some callbacks ran:
either nothing changed, or the headers had not been sent and exactly one status
line with headers and one body were added. -/
def AtMostOneWrite (r r1 : ServerResponse) : Prop :=
  r1 = r ∨ (r.headersSent = false ∧ r1.headersSent = true ∧
    ∃ st h b, r1.wire = r.wire ++ [Call.writeHead st h, Call.endBody b])

/-- A client response to which nothing has been written yet. -/
def freshRes : ServerResponse := { headersSent := false, wire := [] }

/-- An upstream response with status 200 and the given headers. -/
def upstream200 (headers : Headers) : IncomingMessage :=
  { statusCode := some 200, headers := headers, destroyed := false }

/-- The state in which the `end` listener finds a request for `/` whose upstream
answered 200 with the given headers and body text. -/
def sessionAtEnd (headers : Headers) (body : String) : Session :=
  { url := "/", proxyRes := upstream200 headers, res := freshRes,
    body := encodeUtf8 body.toList, timerArmed := true, log := [] }

/-! ## The pattern and the rewrite -/

theorem starLoop_sound (a : Atom) (k : Text → Option Nat) :
    ∀ (s : Text) (n : Nat), starLoop a k s = some n →
      ∃ u v m, s = u ++ v ∧ (∀ x ∈ u, a.accepts x = true) ∧ k v = some m ∧ n = u.length + m := by
  intro s
  induction s with
  | nil =>
    intro n h
    exact ⟨[], [], n, rfl, by simp, by simpa [starLoop] using h, by simp⟩
  | cons c t ih =>
    intro n h
    rw [starLoop] at h
    by_cases hc : a.accepts c = true
    · rw [if_pos hc] at h
      cases hs : starLoop a k t with
      | none =>
        rw [hs] at h
        exact ⟨[], c :: t, n, rfl, by simp, h, by simp⟩
      | some m =>
        rw [hs] at h
        obtain ⟨u, v, m1, rfl, hu, hk, rfl⟩ := ih m hs
        refine ⟨c :: u, v, m1, rfl, ?_, hk, ?_⟩
        · intro x hx
          rcases List.mem_cons.mp hx with rfl | hx
          · exact hc
          · exact hu x hx
        · simp at h
          simp
          omega
    · rw [if_neg hc] at h
      exact ⟨[], c :: t, n, rfl, by simp, h, by simp⟩

theorem starLoop_complete (a : Atom) (k : Text → Option Nat) :
    ∀ (u v : Text) (m : Nat), (∀ x ∈ u, a.accepts x = true) → k v = some m →
      ∃ n, starLoop a k (u ++ v) = some n := by
  intro u
  induction u with
  | nil =>
    intro v m _ hk
    cases v with
    | nil => exact ⟨m, by simpa [starLoop] using hk⟩
    | cons c t =>
      simp only [List.nil_append]
      rw [starLoop]
      by_cases hc : a.accepts c = true
      · rw [if_pos hc]
        cases hs : starLoop a k t with
        | none => exact ⟨m, hk⟩
        | some j => exact ⟨j + 1, rfl⟩
      · rw [if_neg hc]
        exact ⟨m, hk⟩
  | cons c u ih =>
    intro v m hu hk
    obtain ⟨j, hj⟩ := ih v m (fun x hx => hu x (List.mem_cons_of_mem _ hx)) hk
    have hc : a.accepts c = true := hu c (List.mem_cons_self _ _)
    refine ⟨j + 1, ?_⟩
    simp only [List.cons_append]
    rw [starLoop, if_pos hc, hj]

theorem matchLen_sound : ∀ (r : Regex) (s : Text) (n : Nat), matchLen r s = some n →
    ∃ t rest, s = t ++ rest ∧ t.length = n ∧ Matches r t := by
  intro r
  induction r with
  | nil =>
    intro s n h
    simp [matchLen] at h
    exact ⟨[], s, rfl, by simp [h], rfl⟩
  | cons i r ih =>
    intro s n h
    cases i with
    | one a =>
      cases s with
      | nil => simp [matchLen] at h
      | cons c t =>
        simp only [matchLen] at h
        by_cases hc : a.accepts c = true
        · rw [if_pos hc] at h
          cases hm : matchLen r t with
          | none => simp [hm] at h
          | some m =>
            simp [hm] at h
            obtain ⟨t1, rest, rfl, hl, hM⟩ := ih t m hm
            exact ⟨c :: t1, rest, rfl, by simp [hl, h], c, t1, rfl, hc, hM⟩
        · rw [if_neg hc] at h
          cases h
    | star a =>
      simp only [matchLen] at h
      obtain ⟨u, v, m, rfl, hu, hk, rfl⟩ := starLoop_sound a (matchLen r) s n h
      obtain ⟨t1, rest, rfl, hl, hM⟩ := ih v m hk
      exact ⟨u ++ t1, rest, by simp, by simp [hl], u, t1, rfl, hu, hM⟩
    | plus a =>
      cases s with
      | nil => simp [matchLen] at h
      | cons c t =>
        simp only [matchLen] at h
        by_cases hc : a.accepts c = true
        · rw [if_pos hc] at h
          cases hm : starLoop a (matchLen r) t with
          | none => simp [hm] at h
          | some m =>
            simp [hm] at h
            obtain ⟨u, v, m1, rfl, hu, hk, rfl⟩ := starLoop_sound a (matchLen r) t m hm
            obtain ⟨t1, rest, rfl, hl, hM⟩ := ih v m1 hk
            refine ⟨c :: (u ++ t1), rest, by simp, ?_, c, u, t1, rfl, hc, hu, hM⟩
            simp [hl]
            omega
        · rw [if_neg hc] at h
          cases h

theorem matchLen_complete : ∀ (r : Regex) (t : Text), Matches r t →
    ∀ rest, ∃ n, matchLen r (t ++ rest) = some n := by
  intro r
  induction r with
  | nil =>
    intro t _ rest
    exact ⟨0, by simp [matchLen]⟩
  | cons i r ih =>
    intro t hM rest
    cases i with
    | one a =>
      obtain ⟨c, t1, rfl, hc, hM1⟩ := hM
      obtain ⟨n, hn⟩ := ih t1 hM1 rest
      exact ⟨n + 1, by simp [matchLen, hc, hn]⟩
    | star a =>
      obtain ⟨u, v, rfl, hu, hM1⟩ := hM
      obtain ⟨m, hm⟩ := ih v hM1 rest
      obtain ⟨n, hn⟩ := starLoop_complete a (matchLen r) u (v ++ rest) m hu hm
      exact ⟨n, by simpa [matchLen] using hn⟩
    | plus a =>
      obtain ⟨c, u, v, rfl, hc, hu, hM1⟩ := hM
      obtain ⟨m, hm⟩ := ih v hM1 rest
      obtain ⟨n, hn⟩ := starLoop_complete a (matchLen r) u (v ++ rest) m hu hm
      exact ⟨n + 1, by simp [matchLen, hc, hn]⟩

theorem canonicalize_fixed (c : Char) (h : ¬ (97 ≤ c.toNat ∧ c.toNat ≤ 122)) :
    canonicalize c = c := by
  simp only [canonicalize, if_neg h]

theorem canonicalize_toNat (c : Char) (h : 97 ≤ c.toNat ∧ c.toNat ≤ 122) :
    65 ≤ (canonicalize c).toNat ∧ (canonicalize c).toNat ≤ 90 := by
  have hc : c = Char.ofNat c.toNat := (Char.ofNat_toNat c).symm
  obtain ⟨h1, h2⟩ := h
  generalize c.toNat = n at hc h1 h2
  subst hc
  interval_cases n <;> decide

/-- A character outside the letters is only matched by itself. -/
theorem canonicalize_eq_iff (c p : Char) (hp : p.toNat < 65 ∨ (90 < p.toNat ∧ p.toNat < 97) ∨ 122 < p.toNat) :
    canonicalize c = canonicalize p ↔ c = p := by
  have hpf : canonicalize p = p := canonicalize_fixed p (by omega)
  rw [hpf]
  constructor
  · intro h
    by_cases hc : 97 ≤ c.toNat ∧ c.toNat ≤ 122
    · have := canonicalize_toNat c hc
      rw [h] at this
      omega
    · rwa [canonicalize_fixed c hc] at h
  · intro h
    rw [h, hpf]

theorem accepts_chr (p c : Char) :
    (Atom.chr p).accepts c = true ↔ canonicalize c = canonicalize p := by
  simp [Atom.accepts]

theorem accepts_notGt (c : Char) : (Atom.ncls ['>']).accepts c = true ↔ c ≠ '>' := by
  have h := canonicalize_eq_iff c '>' (by decide)
  simp [Atom.accepts, h]

theorem accepts_quote (c : Char) :
    (Atom.cls [dquote, squote]).accepts c = true ↔ IsQuote c := by
  have h1 := canonicalize_eq_iff c dquote (by decide)
  have h2 := canonicalize_eq_iff c squote (by decide)
  simp [Atom.accepts, h1, h2, IsQuote]

/-- Literal characters as a pattern. -/
theorem matches_literal (cs : List Char) (r : Regex) (t : Text) :
    Matches (cs.map (fun c => Item.one (Atom.chr c)) ++ r) t ↔
      ∃ m t1, t = m ++ t1 ∧ m.map canonicalize = cs.map canonicalize ∧ Matches r t1 := by
  induction cs generalizing t with
  | nil =>
    constructor
    · intro h
      exact ⟨[], t, rfl, rfl, by simpa using h⟩
    · rintro ⟨m, t1, rfl, hm, hM⟩
      have : m = [] := by simpa using hm
      subst this
      simpa using hM
  | cons p cs ih =>
    simp only [List.map_cons, List.cons_append, Matches]
    constructor
    · rintro ⟨c, t1, rfl, hc, hM⟩
      obtain ⟨m, t2, rfl, hm, hM2⟩ := (ih t1).mp hM
      refine ⟨c :: m, t2, rfl, ?_, hM2⟩
      simp [hm, (accepts_chr p c).mp hc]
    · rintro ⟨m, t1, rfl, hm, hM⟩
      cases m with
      | nil => simp at hm
      | cons c m =>
        simp only [List.map_cons, List.cons.injEq] at hm
        exact ⟨c, m ++ t1, rfl, (accepts_chr p c).mpr hm.1, (ih _).mpr ⟨m, t1, rfl, hm.2, hM⟩⟩

theorem matches_lits (s : String) (r : Regex) (t : Text) :
    Matches (lits s ++ r) t ↔ ∃ m t1, t = m ++ t1 ∧ ciEq m s ∧ Matches r t1 :=
  matches_literal s.toList r t

/-- The language of the pattern of `onProxyRes`, spelled out. -/
theorem matches_cspMetaRegex (t : Text) : Matches cspMetaRegex t ↔ IsCspPattern t := by
  have e : cspMetaRegex =
      lits "<meta" ++ (Item.plus (Atom.ncls ['>']) :: (lits "http-equiv=" ++
        (Item.one (Atom.cls [dquote, squote]) :: (lits "Content-Security-Policy" ++
          [Item.one (Atom.cls [dquote, squote]), Item.star (Atom.ncls ['>']),
            Item.one (Atom.chr '>')])))) := by
    simp [cspMetaRegex]
  rw [e]
  constructor
  · intro h
    obtain ⟨m, t1, rfl, hm, h⟩ := (matches_lits _ _ _).mp h
    obtain ⟨a0, a, t2, rfl, ha0, ha, h⟩ := h
    obtain ⟨hh, t3, rfl, hhh, h⟩ := (matches_lits _ _ _).mp h
    obtain ⟨q1, t4, rfl, hq1, h⟩ := h
    obtain ⟨c, t5, rfl, hc, h⟩ := (matches_lits _ _ _).mp h
    obtain ⟨q2, t6, rfl, hq2, h⟩ := h
    obtain ⟨b, t7, rfl, hb, h⟩ := h
    obtain ⟨g, t8, rfl, hg, h⟩ := h
    have ht8 : t8 = [] := h
    subst ht8
    have hg2 : g = '>' := (canonicalize_eq_iff g '>' (by decide)).mp ((accepts_chr _ _).mp hg)
    subst hg2
    refine ⟨m, a0 :: a, hh, q1, c, q2, b, by simp, hm, by simp, ?_, hhh,
      (accepts_quote _).mp hq1, hc, (accepts_quote _).mp hq2, ?_⟩
    · intro hmem
      rcases List.mem_cons.mp hmem with h1 | h1
      · exact (accepts_notGt a0).mp ha0 h1.symm
      · exact (accepts_notGt _).mp (ha _ h1) rfl
    · intro hmem
      exact (accepts_notGt _).mp (hb _ hmem) rfl
  · rintro ⟨m, a, hh, q1, c, q2, b, rfl, hm, ha0, ha, hhh, hq1, hc, hq2, hb⟩
    cases a with
    | nil => exact absurd rfl ha0
    | cons a0 a =>
      refine (matches_lits _ _ _).mpr ⟨m, (a0 :: a) ++ hh ++ [q1] ++ c ++ [q2] ++ b ++ ['>'],
        by simp, hm, ?_⟩
      refine ⟨a0, a, hh ++ [q1] ++ c ++ [q2] ++ b ++ ['>'], by simp, ?_, ?_, ?_⟩
      · exact (accepts_notGt a0).mpr (fun h => ha (h ▸ List.mem_cons_self _ _))
      · intro x hx
        exact (accepts_notGt x).mpr (fun h => ha (h ▸ List.mem_cons_of_mem _ hx))
      refine (matches_lits _ _ _).mpr ⟨hh, [q1] ++ c ++ [q2] ++ b ++ ['>'], by simp, hhh, ?_⟩
      refine ⟨q1, c ++ [q2] ++ b ++ ['>'], by simp, (accepts_quote _).mpr hq1, ?_⟩
      refine (matches_lits _ _ _).mpr ⟨c, [q2] ++ b ++ ['>'], by simp, hc, ?_⟩
      refine ⟨q2, b ++ ['>'], by simp, (accepts_quote _).mpr hq2, ?_⟩
      refine ⟨b, ['>'], rfl, ?_, ?_⟩
      · intro x hx
        exact (accepts_notGt x).mpr (fun h => hb (h ▸ hx))
      · exact ⟨'>', [], rfl, (accepts_chr _ _).mpr rfl, rfl⟩

theorem ciEq_not_mem_gt (m : Text) (p : String) (h : ciEq m p)
    (hp : '>' ∉ p.toList.map canonicalize) : '>' ∉ m := by
  intro hm
  apply hp
  rw [← h]
  exact List.mem_map.mpr ⟨'>', hm, by decide⟩

/-- A removed text runs from a `<` to the first `>` after it. -/
theorem IsCspPattern.shape {t : Text} (h : IsCspPattern t) :
    ∃ w, t = '<' :: (w ++ ['>']) ∧ '>' ∉ w := by
  obtain ⟨m, a, hh, q1, c, q2, b, rfl, hm, -, ha, hhh, hq1, hc, hq2, hb⟩ := h
  have hm1 : '>' ∉ m := ciEq_not_mem_gt m _ hm (by decide)
  have hh1 : '>' ∉ hh := ciEq_not_mem_gt hh _ hhh (by decide)
  have hc1 : '>' ∉ c := ciEq_not_mem_gt c _ hc (by decide)
  have hq1n : q1 ≠ '>' := by rcases hq1 with rfl | rfl <;> decide
  have hq2n : q2 ≠ '>' := by rcases hq2 with rfl | rfl <;> decide
  cases m with
  | nil => exact absurd hm (by simp [ciEq])
  | cons c0 m =>
    have h0 : canonicalize c0 = canonicalize '<' := by
      have := congrArg List.head? hm
      simpa [ciEq] using this
    have hc0 : c0 = '<' := (canonicalize_eq_iff c0 '<' (by decide)).mp h0
    subst hc0
    refine ⟨m ++ a ++ hh ++ [q1] ++ c ++ [q2] ++ b, by simp, ?_⟩
    simp only [List.mem_append, List.mem_cons, List.mem_singleton, List.not_mem_nil, or_false,
      not_or]
    simp only [List.mem_cons, not_or] at hm1
    exact ⟨⟨⟨⟨⟨⟨hm1.2, ha⟩, hh1⟩, fun h => hq1n h.symm⟩, hc1⟩, fun h => hq2n h.symm⟩, hb⟩

/-- The first `>` of a text determines the split around it. -/
theorem split_at_first_gt {w1 w2 x1 x2 : Text} (h1 : '>' ∉ w1) (h2 : '>' ∉ w2)
    (h : w1 ++ '>' :: x1 = w2 ++ '>' :: x2) : w1 = w2 ∧ x1 = x2 := by
  induction w1 generalizing w2 with
  | nil =>
    cases w2 with
    | nil => simpa using h
    | cons c w2 =>
      simp only [List.nil_append, List.cons_append, List.cons.injEq] at h
      exact absurd (List.mem_cons.mpr (Or.inl h.1)) h2
  | cons c w1 ih =>
    cases w2 with
    | nil =>
      simp only [List.nil_append, List.cons_append, List.cons.injEq] at h
      exact absurd (List.mem_cons.mpr (Or.inl h.1.symm)) h1
    | cons d w2 =>
      simp only [List.cons_append, List.cons.injEq] at h
      obtain ⟨rfl, h⟩ := h
      have := ih (fun hm => h1 (List.mem_cons_of_mem _ hm))
        (fun hm => h2 (List.mem_cons_of_mem _ hm)) h
      exact ⟨by rw [this.1], this.2⟩

/-- A successful match starts at a `<` and stops at the first `>`. -/
theorem matchLen_csp_shape {s : Text} {n : Nat} (h : matchLen cspMetaRegex s = some n) :
    ∃ w rest, s = '<' :: (w ++ '>' :: rest) ∧ '>' ∉ w ∧ n = w.length + 2 ∧
      IsCspPattern ('<' :: (w ++ ['>'])) := by
  obtain ⟨t, rest, rfl, hl, hM⟩ := matchLen_sound _ _ _ h
  have hP := (matches_cspMetaRegex t).mp hM
  obtain ⟨w, rfl, hw⟩ := hP.shape
  exact ⟨w, rest, by simp, hw, by simp at hl; omega, hP⟩

/-- A text of the removed shape is matched wherever it starts the input. -/
theorem matchLen_csp_of_pattern {w : Text} (hw : '>' ∉ w)
    (hP : IsCspPattern ('<' :: (w ++ ['>']))) (rest : Text) :
    matchLen cspMetaRegex ('<' :: (w ++ '>' :: rest)) = some (w.length + 2) := by
  obtain ⟨n, hn⟩ := matchLen_complete _ _ ((matches_cspMetaRegex _).mpr hP) rest
  have e : ('<' :: (w ++ ['>'])) ++ rest = '<' :: (w ++ '>' :: rest) := by simp
  rw [e] at hn
  obtain ⟨w1, rest1, hs, hw1, hn1, -⟩ := matchLen_csp_shape hn
  simp only [List.cons.injEq, true_and] at hs
  obtain ⟨rfl, -⟩ := split_at_first_gt hw hw1 hs
  rw [hn, hn1]

theorem replaceGo_skip (re : Regex) (u x : Text) :
    replaceGo re u.length (u ++ x) = replaceGo re 0 x := by
  induction u with
  | nil => rfl
  | cons c u ih =>
    simp only [List.length_cons, List.cons_append]
    cases hx : u ++ x with
    | nil =>
      have hu : u = [] := (List.append_eq_nil.mp hx).1
      have hx1 : x = [] := (List.append_eq_nil.mp hx).2
      subst hu hx1
      simp [replaceGo]
    | cons d y =>
      rw [replaceGo, ← hx]
      exact ih

theorem stripCsp_nil : stripCsp [] = [] := rfl

theorem stripCsp_copy {c : Char} {t : Text} (h : matchLen cspMetaRegex (c :: t) = none) :
    stripCsp (c :: t) = c :: stripCsp t := by
  simp only [stripCsp, replaceAll]
  rw [replaceGo, h]

theorem stripCsp_drop {w : Text} (rest : Text)
    (h : matchLen cspMetaRegex ('<' :: (w ++ '>' :: rest)) = some (w.length + 2)) :
    stripCsp ('<' :: (w ++ '>' :: rest)) = stripCsp rest := by
  simp only [stripCsp, replaceAll]
  rw [replaceGo, h]
  have e : w ++ '>' :: rest = (w ++ ['>']) ++ rest := by simp
  have l : w.length + 1 = (w ++ ['>']).length := by simp
  show replaceGo cspMetaRegex (w.length + 1) (w ++ '>' :: rest) = _
  rw [e, l]
  exact replaceGo_skip _ _ _

/-- Every piece taken out by the rewrite has the removed shape. -/
theorem stripCsp_removal_aux : ∀ (n : Nat) (s : Text), s.length ≤ n →
    Removal IsCspPattern s (stripCsp s) := by
  intro n
  induction n with
  | zero =>
    intro s hl
    have : s = [] := List.length_eq_zero.mp (Nat.le_zero.mp hl)
    subst this
    exact Removal.done
  | succ n ih =>
    intro s hl
    cases s with
    | nil => exact Removal.done
    | cons c t =>
      simp only [List.length_cons, Nat.add_le_add_iff_right] at hl
      cases hm : matchLen cspMetaRegex (c :: t) with
      | none =>
        rw [stripCsp_copy hm]
        exact Removal.keep c (ih t hl)
      | some k =>
        obtain ⟨w, rest, hs, hw, rfl, hP⟩ := matchLen_csp_shape hm
        rw [hs] at hm ⊢
        rw [stripCsp_drop rest hm]
        have e : '<' :: (w ++ '>' :: rest) = ('<' :: (w ++ ['>'])) ++ rest := by simp
        rw [e]
        refine Removal.drop _ hP (ih rest ?_)
        have := congrArg List.length hs
        simp only [List.length_cons, List.length_append] at this
        omega

theorem stripCsp_removal (s : Text) : Removal IsCspPattern s (stripCsp s) :=
  stripCsp_removal_aux s.length s (Nat.le_refl _)

/-- A text with no piece of the removed shape is left as it is. -/
theorem stripCsp_eq_self_of_patternFree : ∀ (s : Text), PatternFree s → stripCsp s = s := by
  intro s
  induction s with
  | nil => intro _; rfl
  | cons c t ih =>
    intro h
    have hnone : matchLen cspMetaRegex (c :: t) = none := by
      cases hm : matchLen cspMetaRegex (c :: t) with
      | none => rfl
      | some k =>
        obtain ⟨w, rest, hs, -, -, hP⟩ := matchLen_csp_shape hm
        refine absurd hP (h _ ?_)
        rw [hs]
        exact ⟨[], rest, by simp⟩
    rw [stripCsp_copy hnone, ih (fun x hx => h x (hx.trans (List.suffix_cons c t).isInfix))]

/-! ## The runtime model: encoding, header objects, `writeHead` -/

theorem length_encodeChar (c : Char) : (encodeChar c).length = charByteLength c := by
  unfold encodeChar charByteLength
  simp only []
  split_ifs <;> rfl

theorem length_encodeUtf8 (s : Text) : (encodeUtf8 s).length = byteLength s := by
  induction s with
  | nil => rfl
  | cons c s ih =>
    simp only [encodeUtf8, List.flatMap_cons, List.length_append, byteLength, List.map_cons,
      List.sum_cons] at ih ⊢
    rw [ih, length_encodeChar]

theorem includes_eq_true_iff (sub : Text) : ∀ s : Text, includes s sub = true ↔ sub <:+: s := by
  intro s
  induction s with
  | nil =>
    simp only [includes, List.isEmpty_iff]
    constructor
    · intro h; subst h; exact List.infix_refl _
    · intro h; exact List.eq_nil_of_infix_nil h
  | cons c t ih =>
    rw [includes, Bool.or_eq_true, ih, List.infix_cons_iff, List.isPrefixOf_iff_prefix]

theorem get_set_self (h : Headers) (k : String) (v : HeaderValue) :
    (h.set k v).get k = some v := by
  induction h with
  | nil => simp [Headers.set, Headers.get]
  | cons kv t ih =>
    obtain ⟨k1, v1⟩ := kv
    by_cases hk : k1 = k
    · simp [Headers.set, Headers.get, hk]
    · have hb : (k1 == k) = false := by simp [hk]
      simp only [Headers.set, hb]
      simp only [Headers.get, List.find?, hb] at ih ⊢
      exact ih

theorem get_set_of_ne (h : Headers) (k k1 : String) (v : HeaderValue) (hne : k1 ≠ k) :
    (h.set k v).get k1 = h.get k1 := by
  induction h with
  | nil =>
    have hb : (k == k1) = false := by simp [Ne.symm hne]
    simp [Headers.set, Headers.get, hb]
  | cons kv t ih =>
    obtain ⟨k2, v2⟩ := kv
    by_cases hk : k2 = k
    · subst hk
      have hb : (k2 == k1) = false := by simp [Ne.symm hne]
      simp [Headers.set, Headers.get, hb]
    · have hb : (k2 == k) = false := by simp [hk]
      simp only [Headers.set, hb]
      by_cases hk1 : k2 = k1
      · simp [Headers.get, hk1]
      · have hb1 : (k2 == k1) = false := by simp [hk1]
        simp only [Headers.get, List.find?, hb1] at ih ⊢
        exact ih

theorem mem_set (h : Headers) (k : String) (v : HeaderValue) (e : String × HeaderValue)
    (he : e ∈ h.set k v) : e = (k, v) ∨ e ∈ h := by
  induction h with
  | nil => simpa [Headers.set] using he
  | cons kv t ih =>
    obtain ⟨k1, v1⟩ := kv
    by_cases hk : k1 = k
    · simp only [Headers.set, hk, beq_self_eq_true, if_true, List.mem_cons] at he
      rcases he with he | he
      · exact Or.inl he
      · exact Or.inr (List.mem_cons_of_mem _ he)
    · have hb : (k1 == k) = false := by simp [hk]
      have he2 : e = (k1, v1) ∨ e ∈ Headers.set t k v := by
        simpa only [Headers.set, hb, List.mem_cons, Bool.false_eq_true, if_false] using he
      rcases he2 with h0 | h0
      · exact Or.inr (h0 ▸ List.mem_cons_self _ _)
      · rcases ih h0 with h1 | h1
        · exact Or.inl h1
        · exact Or.inr (List.mem_cons_of_mem _ h1)

theorem mem_set_of_ne (h : Headers) (k : String) (v : HeaderValue) (e : String × HeaderValue)
    (he : e ∈ h) (hne : e.1 ≠ k) : e ∈ h.set k v := by
  induction h with
  | nil => cases he
  | cons kv t ih =>
    obtain ⟨k1, v1⟩ := kv
    by_cases hk : k1 = k
    · simp only [Headers.set, hk, beq_self_eq_true, if_true]
      rcases List.mem_cons.mp he with h1 | h1
      · subst h1
        exact absurd hk hne
      · exact List.mem_cons_of_mem _ h1
    · have hb : (k1 == k) = false := by simp [hk]
      simp only [Headers.set, hb]
      rcases List.mem_cons.mp he with h1 | h1
      · exact h1 ▸ List.mem_cons_self _ _
      · exact List.mem_cons_of_mem _ (ih h1)

theorem mem_delete (h : Headers) (k : String) (e : String × HeaderValue) :
    e ∈ h.delete k ↔ e ∈ h ∧ e.1 ≠ k := by
  simp [Headers.delete, List.mem_filter]

theorem writeHead_ok (r : ServerResponse) (st : Nat) (h : Headers)
    (hs : r.headersSent = false) (hst : 100 ≤ st ∧ st ≤ 999) :
    r.writeHead st h =
      .ok { headersSent := true, wire := r.wire ++ [Call.writeHead st h] } := by
  have h1 : ¬ (st < 100 ∨ 999 < st) := by omega
  simp [ServerResponse.writeHead, hs, h1]

/-- A `writeHead` that returns has written to a response whose headers had not
been sent. -/
theorem writeHead_eq_ok (r r1 : ServerResponse) (st : Nat) (h : Headers)
    (hw : r.writeHead st h = .ok r1) :
    r.headersSent = false ∧ r1 = { headersSent := true, wire := r.wire ++ [Call.writeHead st h] } := by
  unfold ServerResponse.writeHead at hw
  split_ifs at hw with h1 h2
  · simp only [Bool.not_eq_true] at h1
    refine ⟨h1, ?_⟩
    injection hw with hw
    exact hw.symm

/-! ## The `end` listener -/

theorem endTry_html (s : Session) (hs : s.res.headersSent = false)
    (hst : 100 ≤ statusOr200 s.proxyRes.statusCode ∧ statusOr200 s.proxyRes.statusCode ≤ 999)
    (hct : includesTextHtml (contentTypeOf s.proxyRes.headers) = .ok true) :
    endTry s = .ok { s with res :=
      { headersSent := true,
        wire := s.res.wire ++
          [Call.writeHead (statusOr200 s.proxyRes.statusCode)
            (rewriteHeaders s.proxyRes.headers (contentTypeOf s.proxyRes.headers)
              (stripCsp (decodeUtf8 s.body))),
           Call.endBody (Body.text (stripCsp (decodeUtf8 s.body)))] } } := by
  simp [endTry, hct, writeHead_ok _ _ _ hs hst, ServerResponse.endWith]

theorem endTry_pass (s : Session) (hs : s.res.headersSent = false)
    (hst : 100 ≤ statusOr200 s.proxyRes.statusCode ∧ statusOr200 s.proxyRes.statusCode ≤ 999)
    (hct : includesTextHtml (contentTypeOf s.proxyRes.headers) = .ok false) :
    endTry s = .ok { s with res :=
      { headersSent := true,
        wire := s.res.wire ++
          [Call.writeHead (statusOr200 s.proxyRes.statusCode) s.proxyRes.headers,
           Call.endBody (Body.bytes s.body)] } } := by
  simp [endTry, hct, writeHead_ok _ _ _ hs hst, ServerResponse.endWith]

theorem onEnd_html (s : Session) (hs : s.res.headersSent = false)
    (hst : 100 ≤ statusOr200 s.proxyRes.statusCode ∧ statusOr200 s.proxyRes.statusCode ≤ 999)
    (hct : includesTextHtml (contentTypeOf s.proxyRes.headers) = .ok true) :
    onEnd s = .ok { s with timerArmed := false, res :=
      { headersSent := true,
        wire := s.res.wire ++
          [Call.writeHead (statusOr200 s.proxyRes.statusCode)
            (rewriteHeaders s.proxyRes.headers (contentTypeOf s.proxyRes.headers)
              (stripCsp (decodeUtf8 s.body))),
           Call.endBody (Body.text (stripCsp (decodeUtf8 s.body)))] } } := by
  have h := endTry_html { s with timerArmed := false } hs hst hct
  simp only [onEnd, h]

theorem onEnd_pass (s : Session) (hs : s.res.headersSent = false)
    (hst : 100 ≤ statusOr200 s.proxyRes.statusCode ∧ statusOr200 s.proxyRes.statusCode ≤ 999)
    (hct : includesTextHtml (contentTypeOf s.proxyRes.headers) = .ok false) :
    onEnd s = .ok { s with timerArmed := false, res :=
      { headersSent := true,
        wire := s.res.wire ++
          [Call.writeHead (statusOr200 s.proxyRes.statusCode) s.proxyRes.headers,
           Call.endBody (Body.bytes s.body)] } } := by
  have h := endTry_pass { s with timerArmed := false } hs hst hct
  simp only [onEnd, h]

/-- On the HTML path the header `content-type` is present and truthy, so
`contentType` is the value received. -/
theorem contentType_received (h : Headers)
    (hct : includesTextHtml (contentTypeOf h) = .ok true) :
    h.get "content-type" = some (contentTypeOf h) := by
  unfold contentTypeOf at hct ⊢
  cases hg : h.get "content-type" with
  | none =>
    rw [hg] at hct
    simp [includesTextHtml, includes] at hct
  | some v =>
    cases v with
    | str x => rfl
    | list l => rfl
    | num n =>
      cases n with
      | zero =>
        rw [hg] at hct
        simp [includesTextHtml, includes] at hct
      | succ n => rfl

theorem run_append (s : Session) (es fs : List Event) :
    run s (es ++ fs) = match run s es with
      | .error e => .error e
      | .ok s1 => run s1 fs := by
  induction es generalizing s with
  | nil => rfl
  | cons e es ih =>
    simp only [List.cons_append, run]
    cases step s e with
    | error err => rfl
    | ok s1 => exact ih s1

theorem run_data (s : Session) (chunks : List Bytes) :
    run s (chunks.map Event.data) = .ok { s with body := s.body ++ chunks.flatten } := by
  induction chunks generalizing s with
  | nil => simp [run]
  | cons c cs ih =>
    simp only [List.map_cons, run, step, onData, List.flatten_cons]
    rw [ih]
    simp

/-! ## The timer, the `catch` block and the event loop -/

theorem responseTimeout_eq (s : Session) :
    responseTimeout s = .ok { s with
      log := s.log ++ ["Proxy response timeout exceeded for: " ++ s.url],
      proxyRes := { s.proxyRes with destroyed := true },
      res := if s.res.headersSent then s.res else
        { headersSent := true,
          wire := s.res.wire ++
            [Call.writeHead 504 errorHeaders, Call.endBody (Body.text timeoutPage.toList)] } } := by
  cases hs : s.res.headersSent with
  | true => simp [responseTimeout, hs]
  | false =>
    have hw := writeHead_ok s.res 504 errorHeaders hs (by omega)
    simp [responseTimeout, hs, hw, ServerResponse.endWith]

theorem endCatch_eq (err : JSError) (s : Session) :
    endCatch err s = .ok { s with
      log := s.log ++
        ["Erro processando resposta do proxy (onProxyRes end event): " ++ err.message],
      res := if s.res.headersSent then s.res else
        { headersSent := true,
          wire := s.res.wire ++
            [Call.writeHead 502 errorHeaders,
             Call.endBody (Body.text (processingPage err.message).toList)] } } := by
  cases hs : s.res.headersSent with
  | true => simp [endCatch, hs]
  | false =>
    have hw := writeHead_ok s.res 502 errorHeaders hs (by omega)
    simp [endCatch, hs, hw, ServerResponse.endWith]

/-- A `try` block that completes has written one response to a client whose
headers had not been sent. -/
theorem endTry_eq_ok (s s1 : Session) (h : endTry s = .ok s1) :
    s.res.headersSent = false ∧ ∃ st hdrs b, s1 = { s with res :=
      { headersSent := true, wire := s.res.wire ++ [Call.writeHead st hdrs, Call.endBody b] } } := by
  unfold endTry at h
  simp only [] at h
  split at h
  · cases h
  · split at h
    · cases h
    · rename_i r hw
      obtain ⟨h1, h2⟩ := writeHead_eq_ok _ _ _ _ hw
      injection h with h
      refine ⟨h1, statusOr200 s.proxyRes.statusCode,
        rewriteHeaders s.proxyRes.headers (contentTypeOf s.proxyRes.headers)
          (stripCsp (decodeUtf8 s.body)),
        Body.text (stripCsp (decodeUtf8 s.body)), ?_⟩
      rw [← h, h2]
      simp [ServerResponse.endWith]
  · split at h
    · cases h
    · rename_i r hw
      obtain ⟨h1, h2⟩ := writeHead_eq_ok _ _ _ _ hw
      injection h with h
      refine ⟨h1, statusOr200 s.proxyRes.statusCode, s.proxyRes.headers, Body.bytes s.body, ?_⟩
      rw [← h, h2]
      simp [ServerResponse.endWith]

theorem atMostOneWrite_trans {r r1 r2 : ServerResponse} (h1 : AtMostOneWrite r r1)
    (h2 : AtMostOneWrite r1 r2) : AtMostOneWrite r r2 := by
  rcases h1 with rfl | ⟨ha, hb, hc⟩
  · exact h2
  · rcases h2 with rfl | ⟨hd, -, -⟩
    · exact Or.inr ⟨ha, hb, hc⟩
    · rw [hb] at hd
      cases hd

theorem atMostOneWrite_send (r : ServerResponse) (st : Nat) (hdrs : Headers) (b : Body) :
    AtMostOneWrite r (if r.headersSent then r else
      { headersSent := true, wire := r.wire ++ [Call.writeHead st hdrs, Call.endBody b] }) := by
  cases hs : r.headersSent with
  | true => exact Or.inl (by simp)
  | false => exact Or.inr ⟨hs, by simp, st, hdrs, b, by simp⟩

theorem onEnd_atMostOne (s : Session) :
    ∃ s1, onEnd s = .ok s1 ∧ AtMostOneWrite s.res s1.res := by
  unfold onEnd
  simp only []
  cases ht : endTry { s with timerArmed := false } with
  | ok s1 =>
    obtain ⟨h1, st, hdrs, b, h2⟩ := endTry_eq_ok _ _ ht
    refine ⟨s1, rfl, Or.inr ⟨h1, ?_, st, hdrs, b, ?_⟩⟩
    · rw [h2]
    · rw [h2]
  | error err =>
    show ∃ s1, endCatch err { s with timerArmed := false } = .ok s1 ∧ AtMostOneWrite s.res s1.res
    rw [endCatch_eq]
    exact ⟨_, rfl, atMostOneWrite_send _ _ _ _⟩

theorem step_atMostOne (s : Session) (e : Event) :
    ∃ s1, step s e = .ok s1 ∧ AtMostOneWrite s.res s1.res := by
  cases e with
  | data chunk => exact ⟨_, rfl, Or.inl rfl⟩
  | finish => exact onEnd_atMostOne s
  | timeout =>
    simp only [step]
    by_cases ha : s.timerArmed = true
    · rw [if_pos ha, responseTimeout_eq]
      exact ⟨_, rfl, atMostOneWrite_send _ _ _ _⟩
    · rw [if_neg ha]
      exact ⟨_, rfl, Or.inl rfl⟩

theorem run_atMostOne (es : List Event) : ∀ s : Session,
    ∃ s1, run s es = .ok s1 ∧ AtMostOneWrite s.res s1.res := by
  induction es with
  | nil => intro s; exact ⟨s, rfl, Or.inl rfl⟩
  | cons e es ih =>
    intro s
    obtain ⟨s1, h1, w1⟩ := step_atMostOne s e
    obtain ⟨s2, h2, w2⟩ := ih s1
    refine ⟨s2, ?_, atMostOneWrite_trans w1 w2⟩
    simp only [run, h1, h2]

/-- Where the entries of the rewritten header object come from: the four
assignments, or the upstream mapping minus the four deleted keys. -/
theorem mem_rewriteHeaders (up : Headers) (ct : HeaderValue) (html : Text)
    (e : String × HeaderValue) (he : e ∈ rewriteHeaders up ct html) :
    e = ("content-type", ct) ∨ e = ("content-security-policy", HeaderValue.str "") ∨
    e = ("x-frame-options", HeaderValue.str "") ∨
    e = ("content-length", HeaderValue.num (byteLength html)) ∨
    (e ∈ up ∧ e.1 ≠ "x-frame-options" ∧ e.1 ≠ "X-Frame-Options" ∧
      e.1 ≠ "content-security-policy" ∧ e.1 ≠ "Content-Security-Policy") := by
  simp only [rewriteHeaders] at he
  rcases mem_set _ _ _ _ he with h | he
  · exact Or.inl h
  rcases mem_set _ _ _ _ he with h | he
  · exact Or.inr (Or.inl h)
  rcases mem_set _ _ _ _ he with h | he
  · exact Or.inr (Or.inr (Or.inl h))
  rcases mem_set _ _ _ _ he with h | he
  · exact Or.inr (Or.inr (Or.inr (Or.inl h)))
  simp only [mem_delete] at he
  exact Or.inr (Or.inr (Or.inr (Or.inr ⟨he.1.1.1.1, he.1.1.1.2, he.1.1.2, he.1.2, he.2⟩)))

/-! ## Header names as the runtime delivers them -/

theorem toNat_ofNat_ascii (n : Nat) (h : n < 128) : (Char.ofNat n).toNat = n := by
  interval_cases n <;> rfl

theorem lowerChar_not_upper (c : Char) :
    ¬ (65 ≤ (lowerChar c).toNat ∧ (lowerChar c).toNat ≤ 90) := by
  unfold lowerChar
  split_ifs with h
  · rw [toNat_ofNat_ascii _ (by omega)]
    omega
  · exact h

/-- Apart from the upper-case letters, no two characters have the same canonical
form. -/
theorem canonicalize_inj (c d : Char) (hc : ¬ (65 ≤ c.toNat ∧ c.toNat ≤ 90))
    (hd : ¬ (65 ≤ d.toNat ∧ d.toNat ≤ 90)) (h : canonicalize c = canonicalize d) : c = d := by
  by_cases lc : 97 ≤ c.toNat ∧ c.toNat ≤ 122
  · by_cases ld : 97 ≤ d.toNat ∧ d.toNat ≤ 122
    · have h1 := congrArg Char.toNat h
      simp only [canonicalize, if_pos lc, if_pos ld] at h1
      rw [toNat_ofNat_ascii _ (by omega), toNat_ofNat_ascii _ (by omega)] at h1
      have h2 : c.toNat = d.toNat := by omega
      rw [← Char.ofNat_toNat c, ← Char.ofNat_toNat d, h2]
    · have h1 := canonicalize_toNat c lc
      rw [h, canonicalize_fixed d ld] at h1
      exact absurd h1 hd
  · by_cases ld : 97 ≤ d.toNat ∧ d.toNat ≤ 122
    · have h1 := canonicalize_toNat d ld
      rw [← h, canonicalize_fixed c lc] at h1
      exact absurd h1 hc
    · rwa [canonicalize_fixed c lc, canonicalize_fixed d ld] at h

theorem map_canonicalize_inj : ∀ (l1 l2 : List Char),
    (∀ c ∈ l1, ¬ (65 ≤ c.toNat ∧ c.toNat ≤ 90)) → (∀ c ∈ l2, ¬ (65 ≤ c.toNat ∧ c.toNat ≤ 90)) →
    l1.map canonicalize = l2.map canonicalize → l1 = l2 := by
  intro l1
  induction l1 with
  | nil =>
    intro l2 _ _ h
    cases l2 with
    | nil => rfl
    | cons d l2 => simp at h
  | cons c l1 ih =>
    intro l2 h1 h2 h
    cases l2 with
    | nil => simp at h
    | cons d l2 =>
      simp only [List.map_cons, List.cons.injEq] at h
      have hcd := canonicalize_inj c d (h1 c (List.mem_cons_self _ _))
        (h2 d (List.mem_cons_self _ _)) h.1
      have htl := ih l2 (fun x hx => h1 x (List.mem_cons_of_mem _ hx))
        (fun x hx => h2 x (List.mem_cons_of_mem _ hx)) h.2
      rw [hcd, htl]

/-- A delivered key that equals a lower-case name up to letter case is that name. -/
theorem lowerName_eq_of_same (field name : String)
    (hn : ∀ c ∈ name.toList, ¬ (65 ≤ c.toNat ∧ c.toNat ≤ 90))
    (h : sameHeaderName (lowerName field) name = true) : lowerName field = name := by
  simp only [sameHeaderName, lowerName, beq_iff_eq] at h
  have hl : ∀ c ∈ field.toList.map lowerChar, ¬ (65 ≤ c.toNat ∧ c.toNat ≤ 90) := by
    intro c hc
    obtain ⟨x, -, rfl⟩ := List.mem_map.mp hc
    exact lowerChar_not_upper x
  have := map_canonicalize_inj _ _ hl hn h
  show String.mk (field.toList.map lowerChar) = name
  rw [this]
  rfl

theorem mem_addHeaderLine (dest : Headers) (field value : String)
    (e : String × HeaderValue) (he : e ∈ addHeaderLine dest field value) :
    e.1 = lowerName field ∨ e ∈ dest := by
  unfold addHeaderLine at he
  simp only [] at he
  split_ifs at he <;> split at he <;>
    first
    | exact Or.inr he
    | (rcases mem_set _ _ _ _ he with h | h
       · exact Or.inl (by rw [h])
       · exact Or.inr h)

theorem mem_foldl_addHeaderLine (lines : List (String × String)) :
    ∀ (dest : Headers), (∀ e ∈ dest, ∃ field, e.1 = lowerName field) →
      ∀ e ∈ lines.foldl (fun d fv => addHeaderLine d fv.1 fv.2) dest,
        ∃ field, e.1 = lowerName field := by
  induction lines with
  | nil => intro dest h e he; exact h e he
  | cons fv lines ih =>
    intro dest h e he
    refine ih (addHeaderLine dest fv.1 fv.2) ?_ e he
    intro x hx
    rcases mem_addHeaderLine _ _ _ _ hx with h1 | h1
    · exact ⟨fv.1, h1⟩
    · exact h x h1

/-- Every key of a delivered header object is a lower-cased name. -/
theorem receivedHeaders_keys (lines : List (String × String)) :
    ∀ e ∈ receivedHeaders lines, ∃ field, e.1 = lowerName field :=
  mem_foldl_addHeaderLine lines [] (fun _ he => absurd he (List.not_mem_nil _))

/-! ## Properties of the response pipeline -/

/-- C2.  On the HTML path the `content-length` passed to `writeHead` is the number
of bytes that the text passed to `res.end` takes on the wire in UTF-8. -/
theorem content_length_is_body_byte_length (s : Session) (hs : s.res.headersSent = false)
    (hst : 100 ≤ statusOr200 s.proxyRes.statusCode ∧ statusOr200 s.proxyRes.statusCode ≤ 999)
    (hct : includesTextHtml (contentTypeOf s.proxyRes.headers) = .ok true) :
    ∃ s1 hdrs html, onEnd s = .ok s1 ∧
      s1.res.wire = s.res.wire ++
        [Call.writeHead (statusOr200 s.proxyRes.statusCode) hdrs,
         Call.endBody (Body.text html)] ∧
      hdrs.get "content-length" = some (HeaderValue.num (Body.toBytes (Body.text html)).length) := by
  refine ⟨_, _, _, onEnd_html s hs hst hct, rfl, ?_⟩
  simp only [rewriteHeaders, Body.toBytes, length_encodeUtf8]
  rw [get_set_of_ne _ _ _ _ (by decide), get_set_of_ne _ _ _ _ (by decide),
    get_set_of_ne _ _ _ _ (by decide), get_set_self]

/-- C2 at a response whose rewritten text has characters of two bytes. -/
theorem content_length_is_body_byte_length_witness :
    ∃ s1 hdrs html,
      onEnd (sessionAtEnd [("content-type", HeaderValue.str "text/html"),
        ("content-length", HeaderValue.str "57")]
        "<meta http-equiv='Content-Security-Policy'><p>ação</p>") = .ok s1 ∧
      s1.res.wire = [] ++ [Call.writeHead (statusOr200 (some 200)) hdrs,
        Call.endBody (Body.text html)] ∧
      hdrs.get "content-length" = some (HeaderValue.num (Body.toBytes (Body.text html)).length) :=
  content_length_is_body_byte_length
    (sessionAtEnd [("content-type", HeaderValue.str "text/html"),
      ("content-length", HeaderValue.str "57")]
      "<meta http-equiv='Content-Security-Policy'><p>ação</p>")
    rfl (by decide) rfl

/-- C3, amended.  For a response whose status code `res.writeHead` accepts,
handled before anything was sent: when the header `content-type` is absent, or is
a string that does not contain `text/html`, the `end` listener that follows the
chunks writes the status with the upstream header mapping itself and, as body, the
chunks concatenated in the order of arrival. -/
theorem passthrough_unchanged (url : String) (proxyRes : IncomingMessage)
    (res : ServerResponse) (chunks : List Bytes) (hs : res.headersSent = false)
    (hst : 100 ≤ statusOr200 proxyRes.statusCode ∧ statusOr200 proxyRes.statusCode ≤ 999)
    (hct : proxyRes.headers.get "content-type" = none ∨
      ∃ ct, proxyRes.headers.get "content-type" = some (HeaderValue.str ct) ∧
        includes ct.toList "text/html".toList = false) :
    ∃ s1, run (onProxyRes url proxyRes res) (chunks.map Event.data ++ [Event.finish]) = .ok s1 ∧
      s1.res.wire = res.wire ++
        [Call.writeHead (statusOr200 proxyRes.statusCode) proxyRes.headers,
         Call.endBody (Body.bytes chunks.flatten)] ∧
      s1.body = chunks.flatten := by
  have hpass : includesTextHtml (contentTypeOf proxyRes.headers) = .ok false := by
    rcases hct with h | ⟨ct, h, hi⟩
    · simp [contentTypeOf, h, includesTextHtml, includes]
    · simp only [contentTypeOf, h, includesTextHtml, hi]
  rw [run_append, run_data]
  have h := onEnd_pass { onProxyRes url proxyRes res with
    body := (onProxyRes url proxyRes res).body ++ chunks.flatten } hs hst hpass
  simp only [run, step, h]
  exact ⟨_, rfl, by simp [onProxyRes], by simp [onProxyRes]⟩

/-- C3, amended, at a JSON response received in three chunks. -/
theorem passthrough_unchanged_witness :
    ∃ s1, run (onProxyRes "/api" (upstream200 [("content-type", HeaderValue.str "application/json"),
        ("X-Frame-Options", HeaderValue.str "DENY")]) freshRes)
        ([[123, 34], [97, 34, 58], [49, 125]].map Event.data ++ [Event.finish]) = .ok s1 ∧
      s1.res.wire = freshRes.wire ++
        [Call.writeHead (statusOr200 (some 200)) [("content-type", HeaderValue.str "application/json"),
          ("X-Frame-Options", HeaderValue.str "DENY")],
         Call.endBody (Body.bytes [[123, 34], [97, 34, 58], [49, 125]].flatten)] ∧
      s1.body = [[123, 34], [97, 34, 58], [49, 125]].flatten :=
  passthrough_unchanged "/api" (upstream200 [("content-type", HeaderValue.str "application/json"),
      ("X-Frame-Options", HeaderValue.str "DENY")]) freshRes [[123, 34], [97, 34, 58], [49, 125]]
    rfl (by decide) (Or.inr ⟨"application/json", by decide, by decide⟩)

/-- C4.  The success path of the `end` listener calls `res.writeHead` without the
test of `headersSent` that the timer callback, the `catch` block and `onError`
make.  When the timer has fired first, the 504 page is written and `headersSent`
is true; the `end` listener that follows still calls `res.writeHead`, the call
throws, and the `catch` block logs a processing error and writes nothing. -/
theorem success_path_writes_unguarded :
    ∃ s1 s2,
      run (onProxyRes "/" (upstream200 [("content-type", HeaderValue.str "text/plain")]) freshRes)
        [Event.timeout] = .ok s1 ∧
      s1.res.headersSent = true ∧
      endTry { s1 with timerArmed := false } =
        .error ⟨"Cannot write headers after they are sent to the client"⟩ ∧
      run (onProxyRes "/" (upstream200 [("content-type", HeaderValue.str "text/plain")]) freshRes)
        [Event.timeout, Event.finish] = .ok s2 ∧
      s2.res.wire =
        [Call.writeHead 504 [("Content-Type", HeaderValue.str "text/html")],
         Call.endBody (Body.text
           "<h1>⚠️ Conteúdo bloqueado ou indisponível</h1><p>O site de destino não pôde ser carregado pelo proxy devido a um tempo limite da resposta.</p><p>Verifique os logs da aplicação na DigitalOcean para mais detalhes.</p>".toList)] ∧
      s2.log = ["Proxy response timeout exceeded for: /",
        "Erro processando resposta do proxy (onProxyRes end event): Cannot write headers after they are sent to the client"] :=
  ⟨_, _, rfl, rfl, rfl, rfl, rfl, rfl⟩

/-- Whatever events follow `onProxyRes`, in any order and number, no exception
escapes the listeners and at most one status line with headers and one body are
written to the client; when `headersSent` was already true nothing is written at
all. -/
theorem at_most_one_response (url : String) (proxyRes : IncomingMessage)
    (res : ServerResponse) (events : List Event) :
    ∃ s1, run (onProxyRes url proxyRes res) events = .ok s1 ∧
      (s1.res.wire = res.wire ∨
        ∃ st hdrs b, s1.res.wire = res.wire ++ [Call.writeHead st hdrs, Call.endBody b]) ∧
      (res.headersSent = true → s1.res.wire = res.wire) := by
  obtain ⟨s1, h1, w⟩ := run_atMostOne events (onProxyRes url proxyRes res)
  refine ⟨s1, h1, ?_, ?_⟩
  · rcases w with h | ⟨-, -, st, hdrs, b, h⟩
    · exact Or.inl (by rw [h]; rfl)
    · exact Or.inr ⟨st, hdrs, b, h⟩
  · intro hs
    rcases w with h | ⟨hf, -, -⟩
    · rw [h]; rfl
    · have hf1 : res.headersSent = false := hf
      rw [hs] at hf1
      cases hf1

/-- C5, as stated, fails.  `Text/HTML; charset=utf-8` contains `text/html` when
case is ignored, but the response is passed through untouched, while the same
response with `text/html; charset=utf-8` is rewritten. -/
theorem content_type_match_case_sensitive :
    includesCI "Text/HTML; charset=utf-8".toList "text/html".toList = true ∧
    (∃ s1, onEnd (sessionAtEnd [("content-type", HeaderValue.str "Text/HTML; charset=utf-8"),
        ("x-frame-options", HeaderValue.str "DENY")] "<p>x</p>") = .ok s1 ∧
      s1.res.wire =
        [Call.writeHead 200 [("content-type", HeaderValue.str "Text/HTML; charset=utf-8"),
          ("x-frame-options", HeaderValue.str "DENY")],
         Call.endBody (Body.bytes [60, 112, 62, 120, 60, 47, 112, 62])]) ∧
    (∃ s1, onEnd (sessionAtEnd [("content-type", HeaderValue.str "text/html; charset=utf-8"),
        ("x-frame-options", HeaderValue.str "DENY")] "<p>x</p>") = .ok s1 ∧
      s1.res.wire =
        [Call.writeHead 200 [("content-type", HeaderValue.str "text/html; charset=utf-8"),
          ("content-length", HeaderValue.num 8), ("x-frame-options", HeaderValue.str ""),
          ("content-security-policy", HeaderValue.str "")],
         Call.endBody (Body.text "<p>x</p>".toList)]) :=
  ⟨by decide, ⟨_, rfl, by decide⟩, ⟨_, rfl, by decide⟩⟩

/-- C5, amended.  The decision is a case-sensitive substring test: a response whose
`content-type` is a string is rewritten as HTML when that string contains
`text/html` in exactly this spelling, and is passed through unchanged when it
does not. -/
theorem html_iff_contains_lowercase (s : Session) (ct : String)
    (hs : s.res.headersSent = false)
    (hst : 100 ≤ statusOr200 s.proxyRes.statusCode ∧ statusOr200 s.proxyRes.statusCode ≤ 999)
    (hget : s.proxyRes.headers.get "content-type" = some (HeaderValue.str ct)) :
    ("text/html".toList <:+: ct.toList →
      ∃ s1, onEnd s = .ok s1 ∧ s1.res.wire = s.res.wire ++
        [Call.writeHead (statusOr200 s.proxyRes.statusCode)
          (rewriteHeaders s.proxyRes.headers (HeaderValue.str ct) (stripCsp (decodeUtf8 s.body))),
         Call.endBody (Body.text (stripCsp (decodeUtf8 s.body)))]) ∧
    (¬ "text/html".toList <:+: ct.toList →
      ∃ s1, onEnd s = .ok s1 ∧ s1.res.wire = s.res.wire ++
        [Call.writeHead (statusOr200 s.proxyRes.statusCode) s.proxyRes.headers,
         Call.endBody (Body.bytes s.body)]) := by
  have hc : contentTypeOf s.proxyRes.headers = HeaderValue.str ct := by
    simp only [contentTypeOf, hget]
  constructor
  · intro hin
    have hct : includesTextHtml (contentTypeOf s.proxyRes.headers) = .ok true := by
      rw [hc]
      simp only [includesTextHtml, (includes_eq_true_iff _ _).mpr hin]
    refine ⟨_, onEnd_html s hs hst hct, ?_⟩
    rw [hc]
  · intro hin
    have hct : includesTextHtml (contentTypeOf s.proxyRes.headers) = .ok false := by
      rw [hc]
      have : includes ct.toList "text/html".toList = false := by
        cases hi : includes ct.toList "text/html".toList with
        | false => rfl
        | true => exact absurd ((includes_eq_true_iff _ _).mp hi) hin
      simp only [includesTextHtml, this]
    exact ⟨_, onEnd_pass s hs hst hct, rfl⟩

/-- C5, amended, at a content type that lists `text/html` second. -/
theorem html_iff_contains_lowercase_witness :
    "text/html".toList <:+: "application/xhtml+xml, text/html".toList ∧
    ∃ s1, onEnd (sessionAtEnd [("content-type",
        HeaderValue.str "application/xhtml+xml, text/html")] "<b>") = .ok s1 ∧
      s1.res.wire = [] ++
        [Call.writeHead (statusOr200 (some 200))
          (rewriteHeaders [("content-type", HeaderValue.str "application/xhtml+xml, text/html")]
            (HeaderValue.str "application/xhtml+xml, text/html")
            (stripCsp (decodeUtf8 (encodeUtf8 "<b>".toList)))),
         Call.endBody (Body.text (stripCsp (decodeUtf8 (encodeUtf8 "<b>".toList))))] :=
  ⟨(includes_eq_true_iff _ _).mp (by decide),
   (html_iff_contains_lowercase
      (sessionAtEnd [("content-type", HeaderValue.str "application/xhtml+xml, text/html")] "<b>")
      "application/xhtml+xml, text/html" rfl (by decide) (by decide)).1
      ((includes_eq_true_iff _ _).mp (by decide))⟩

/-- C7.  When the timer fires after any number of chunks and before `end`, the
upstream response is destroyed, and the 504 page is written exactly when
`headersSent` was false; otherwise nothing is written. -/
theorem timeout_destroys_and_writes_504 (url : String) (proxyRes : IncomingMessage)
    (res : ServerResponse) (chunks : List Bytes) :
    ∃ s1, run (onProxyRes url proxyRes res) (chunks.map Event.data ++ [Event.timeout]) = .ok s1 ∧
      s1.proxyRes.destroyed = true ∧
      s1.res.wire = (if res.headersSent then res.wire else res.wire ++
        [Call.writeHead 504 [("Content-Type", HeaderValue.str "text/html")],
         Call.endBody (Body.text timeoutPage.toList)]) := by
  rw [run_append, run_data]
  simp only [run, step, onProxyRes, if_true, responseTimeout_eq]
  refine ⟨_, rfl, rfl, ?_⟩
  cases res.headersSent <;> simp [errorHeaders]

/-- C10, as stated, fails.  A `meta` tag whose only attributes are `name` and
`data-http-equiv` has no `http-equiv` attribute, and `metadata` is not a `meta`
tag; both are matched by the pattern and removed. -/
theorem non_csp_markup_removed :
    (∃ s1, onEnd (sessionAtEnd [("content-type", HeaderValue.str "text/html")]
        "<p>a</p><meta name='robots' data-http-equiv='Content-Security-Policy'><p>b</p>") = .ok s1 ∧
      s1.res.wire =
        [Call.writeHead 200 [("content-type", HeaderValue.str "text/html"),
          ("content-length", HeaderValue.num 16), ("x-frame-options", HeaderValue.str ""),
          ("content-security-policy", HeaderValue.str "")],
         Call.endBody (Body.text "<p>a</p><p>b</p>".toList)]) ∧
    stripCsp "<metadata http-equiv='Content-Security-Policy'>c".toList = "c".toList :=
  ⟨⟨_, rfl, by decide⟩, by decide⟩

/-- C10, amended.  On the HTML path the text written is the decoded body with some
pieces taken out, every one of them of the shape `<meta`, one or more characters
other than `>`, `http-equiv=`, a quote, `Content-Security-Policy`, a quote,
characters other than `>`, `>` (letters compared without regard to case); a text
with no piece of that shape is written as it is. -/
theorem rewrite_removes_only_pattern (s : Session) (hs : s.res.headersSent = false)
    (hst : 100 ≤ statusOr200 s.proxyRes.statusCode ∧ statusOr200 s.proxyRes.statusCode ≤ 999)
    (hct : includesTextHtml (contentTypeOf s.proxyRes.headers) = .ok true) :
    ∃ s1 hdrs o, onEnd s = .ok s1 ∧
      s1.res.wire = s.res.wire ++
        [Call.writeHead (statusOr200 s.proxyRes.statusCode) hdrs, Call.endBody (Body.text o)] ∧
      Removal IsCspPattern (decodeUtf8 s.body) o ∧
      ((∀ t, t <:+: decodeUtf8 s.body → ¬ IsCspPattern t) → o = decodeUtf8 s.body) :=
  ⟨_, _, _, onEnd_html s hs hst hct, rfl, stripCsp_removal _,
    stripCsp_eq_self_of_patternFree _⟩

/-- C10, amended, at a response with one tag of the removed shape. -/
theorem rewrite_removes_only_pattern_witness :
    ∃ s1 hdrs o, onEnd (sessionAtEnd [("content-type", HeaderValue.str "text/html")]
        "<p>a</p><META HTTP-EQUIV='content-security-policy' content='x'><p>b</p>") = .ok s1 ∧
      s1.res.wire = [] ++ [Call.writeHead (statusOr200 (some 200)) hdrs, Call.endBody (Body.text o)] ∧
      Removal IsCspPattern (decodeUtf8 (encodeUtf8
        "<p>a</p><META HTTP-EQUIV='content-security-policy' content='x'><p>b</p>".toList)) o ∧
      ((∀ t, t <:+: decodeUtf8 (encodeUtf8
          "<p>a</p><META HTTP-EQUIV='content-security-policy' content='x'><p>b</p>".toList) →
        ¬ IsCspPattern t) → o = decodeUtf8 (encodeUtf8
          "<p>a</p><META HTTP-EQUIV='content-security-policy' content='x'><p>b</p>".toList)) :=
  rewrite_removes_only_pattern
    (sessionAtEnd [("content-type", HeaderValue.str "text/html")]
      "<p>a</p><META HTTP-EQUIV='content-security-policy' content='x'><p>b</p>")
    rfl (by decide) rfl

/-- C1.  A CSP meta tag whose attribute value is not quoted is not matched by the
pattern: for the body `<meta http-equiv=Content-Security-Policy content=x>` served
as `text/html`, the `end` listener writes the tag to the client unchanged. -/
theorem unquoted_csp_meta_tag_kept :
    ∃ s1, onEnd (sessionAtEnd [("content-type", HeaderValue.str "text/html")]
        "<meta http-equiv=Content-Security-Policy content=x>") = .ok s1 ∧
      s1.res.wire =
        [Call.writeHead 200 [("content-type", HeaderValue.str "text/html"),
          ("content-length", HeaderValue.num 51), ("x-frame-options", HeaderValue.str ""),
          ("content-security-policy", HeaderValue.str "")],
         Call.endBody (Body.text "<meta http-equiv=Content-Security-Policy content=x>".toList)] :=
  ⟨_, rfl, by decide⟩

/-- C3, as stated, fails.  A JSON response with status 99 is not passed on: the
`res.writeHead` of the success path throws on the status code, and the `catch`
block writes the 502 page instead of the upstream headers and body. -/
theorem passthrough_fails_on_status_99 :
    ∃ s1, run (onProxyRes "/api"
        { statusCode := some 99,
          headers := [("content-type", HeaderValue.str "application/json")],
          destroyed := false } freshRes)
        ([[123], [125]].map Event.data ++ [Event.finish]) = .ok s1 ∧
      s1.res.wire =
        [Call.writeHead 502 [("Content-Type", HeaderValue.str "text/html")],
         Call.endBody (Body.text
           "<h1>❌ Erro de processamento interno do proxy</h1><p>O proxy encontrou um erro ao tentar processar o conteúdo do site de destino.</p><p>Detalhes: Invalid status code: 99</p><p>Verifique os logs da aplicação na DigitalOcean para mais detalhes.</p>".toList)] :=
  ⟨_, rfl, rfl⟩

/-- C6, as stated, fails.  For an HTML response with status 99 the `res.writeHead`
of the success path throws, and the header mapping written is that of the 502
page: it has neither `x-frame-options` nor `content-security-policy`, and its
content type is not the one received. -/
theorem html_headers_lost_on_status_99 :
    ∃ s1, onEnd { sessionAtEnd (receivedHeaders [("Content-Type", "text/html; charset=utf-8"),
          ("X-Frame-Options", "DENY")]) "<p>x</p>" with
        proxyRes := { statusCode := some 99,
                      headers := receivedHeaders [("Content-Type", "text/html; charset=utf-8"),
                        ("X-Frame-Options", "DENY")],
                      destroyed := false } } = .ok s1 ∧
      s1.res.wire =
        [Call.writeHead 502 [("Content-Type", HeaderValue.str "text/html")],
         Call.endBody (Body.text
           "<h1>❌ Erro de processamento interno do proxy</h1><p>O proxy encontrou um erro ao tentar processar o conteúdo do site de destino.</p><p>Detalhes: Invalid status code: 99</p><p>Verifique os logs da aplicação na DigitalOcean para mais detalhes.</p>".toList)] :=
  ⟨_, rfl, rfl⟩

/-- C6, amended.  For an HTML response whose status code `res.writeHead` accepts,
handled before anything was sent, and for any header lines of the upstream, in
whatever letter case: the header mapping written to the client has no key equal to
`x-frame-options` or `content-security-policy` up to letter case other than these
two lower-case keys, both have the empty string as value, and `content-type` keeps
the value received. -/
theorem rewritten_headers_contract (s : Session) (lines : List (String × String))
    (hraw : s.proxyRes.headers = receivedHeaders lines)
    (hs : s.res.headersSent = false)
    (hst : 100 ≤ statusOr200 s.proxyRes.statusCode ∧ statusOr200 s.proxyRes.statusCode ≤ 999)
    (hct : includesTextHtml (contentTypeOf s.proxyRes.headers) = .ok true) :
    ∃ s1 hdrs b, onEnd s = .ok s1 ∧
      s1.res.wire = s.res.wire ++
        [Call.writeHead (statusOr200 s.proxyRes.statusCode) hdrs, Call.endBody b] ∧
      (∀ k v, (k, v) ∈ hdrs → sameHeaderName k "x-frame-options" = true →
        k = "x-frame-options" ∧ v = HeaderValue.str "") ∧
      (∀ k v, (k, v) ∈ hdrs → sameHeaderName k "content-security-policy" = true →
        k = "content-security-policy" ∧ v = HeaderValue.str "") ∧
      hdrs.get "x-frame-options" = some (HeaderValue.str "") ∧
      hdrs.get "content-security-policy" = some (HeaderValue.str "") ∧
      hdrs.get "content-type" = s.proxyRes.headers.get "content-type" := by
  refine ⟨_, _, _, onEnd_html s hs hst hct, rfl, ?_, ?_, ?_, ?_, ?_⟩
  · intro k v hkv hsame
    rcases mem_rewriteHeaders _ _ _ _ hkv with h | h | h | h | h
    · obtain ⟨rfl, -⟩ := Prod.mk.inj h
      exact absurd hsame (by decide)
    · obtain ⟨rfl, -⟩ := Prod.mk.inj h
      exact absurd hsame (by decide)
    · obtain ⟨rfl, rfl⟩ := Prod.mk.inj h
      exact ⟨rfl, rfl⟩
    · obtain ⟨rfl, -⟩ := Prod.mk.inj h
      exact absurd hsame (by decide)
    · obtain ⟨hmem, n1, -, -, -⟩ := h
      rw [hraw] at hmem
      obtain ⟨field, hf⟩ := receivedHeaders_keys lines _ hmem
      have hk : k = lowerName field := hf
      rw [hk] at hsame n1
      exact absurd (lowerName_eq_of_same field _ (by decide) hsame) n1
  · intro k v hkv hsame
    rcases mem_rewriteHeaders _ _ _ _ hkv with h | h | h | h | h
    · obtain ⟨rfl, -⟩ := Prod.mk.inj h
      exact absurd hsame (by decide)
    · obtain ⟨rfl, rfl⟩ := Prod.mk.inj h
      exact ⟨rfl, rfl⟩
    · obtain ⟨rfl, -⟩ := Prod.mk.inj h
      exact absurd hsame (by decide)
    · obtain ⟨rfl, -⟩ := Prod.mk.inj h
      exact absurd hsame (by decide)
    · obtain ⟨hmem, -, -, n3, -⟩ := h
      rw [hraw] at hmem
      obtain ⟨field, hf⟩ := receivedHeaders_keys lines _ hmem
      have hk : k = lowerName field := hf
      rw [hk] at hsame n3
      exact absurd (lowerName_eq_of_same field _ (by decide) hsame) n3
  · simp only [rewriteHeaders]
    rw [get_set_of_ne _ _ _ _ (by decide), get_set_of_ne _ _ _ _ (by decide), get_set_self]
  · simp only [rewriteHeaders]
    rw [get_set_of_ne _ _ _ _ (by decide), get_set_self]
  · simp only [rewriteHeaders]
    rw [get_set_self, contentType_received _ hct]

/-- C6, amended, at the response of the specification's scenario, its header
names sent in upper and mixed case. -/
theorem rewritten_headers_contract_witness :
    ∃ s1 hdrs b,
      onEnd (sessionAtEnd (receivedHeaders [("Content-Type", "text/html; charset=utf-8"),
          ("X-FRAME-OPTIONS", "DENY"),
          ("Content-Security-Policy", "default-src 'self'"),
          ("Set-Cookie", "a=1"), ("Set-Cookie", "b=2")])
        "<html><head><meta http-equiv='Content-Security-Policy' content='x'><title>X</title></head><body>Y</body></html>")
        = .ok s1 ∧
      s1.res.wire = [] ++ [Call.writeHead (statusOr200 (some 200)) hdrs, Call.endBody b] ∧
      (∀ k v, (k, v) ∈ hdrs → sameHeaderName k "x-frame-options" = true →
        k = "x-frame-options" ∧ v = HeaderValue.str "") ∧
      (∀ k v, (k, v) ∈ hdrs → sameHeaderName k "content-security-policy" = true →
        k = "content-security-policy" ∧ v = HeaderValue.str "") ∧
      hdrs.get "x-frame-options" = some (HeaderValue.str "") ∧
      hdrs.get "content-security-policy" = some (HeaderValue.str "") ∧
      hdrs.get "content-type" = some (HeaderValue.str "text/html; charset=utf-8") :=
  rewritten_headers_contract
    (sessionAtEnd (receivedHeaders [("Content-Type", "text/html; charset=utf-8"),
        ("X-FRAME-OPTIONS", "DENY"),
        ("Content-Security-Policy", "default-src 'self'"),
        ("Set-Cookie", "a=1"), ("Set-Cookie", "b=2")])
      "<html><head><meta http-equiv='Content-Security-Policy' content='x'><title>X</title></head><body>Y</body></html>")
    [("Content-Type", "text/html; charset=utf-8"), ("X-FRAME-OPTIONS", "DENY"),
      ("Content-Security-Policy", "default-src 'self'"),
      ("Set-Cookie", "a=1"), ("Set-Cookie", "b=2")]
    rfl rfl (by decide) rfl

/-- C8, as stated, fails.  With `ws: true` a failed WebSocket upgrade gives
`onError` the client socket: `!res.headersSent` is true, `res.writeHead` is not a
function, and the callback throws instead of sending the 500 page. -/
theorem onError_throws_on_socket :
    onError { code := some "ECONNREFUSED", message := "connect ECONNREFUSED 10.0.0.1:443" }
        ErrorTarget.socket [] =
      (.error ⟨"res.writeHead is not a function"⟩,
        ["Erro no proxy (onError): connect ECONNREFUSED 10.0.0.1:443"]) :=
  rfl

/-- C8, amended.  Given the client response of an HTTP request, `onError` does not
throw.  With the headers not yet sent it writes status 500 and the error page,
whose text contains a message chosen by `err.code` alone: the refused text for
`ECONNREFUSED`, the expired text for `ETIMEDOUT`, and `err.message` for any other
code or none.  With the headers already sent it writes nothing. -/
theorem onError_page_by_code (err : ProxyError) (r : ServerResponse) (log : List String) :
    onError err (ErrorTarget.response r) log =
      (.ok (ErrorTarget.response (if r.headersSent then r else
        { headersSent := true,
          wire := r.wire ++
            [Call.writeHead 500 [("Content-Type", HeaderValue.str "text/html")],
             Call.endBody (Body.text
               ("<h1>⚠️ Erro do Servidor do Proxy</h1><p>" ++
                ("Erro interno no proxy. " ++
                  (if err.code = some "ECONNREFUSED" then
                    "A conexão com o site de destino foi recusada."
                   else if err.code = some "ETIMEDOUT" then
                    "A conexão com o site de destino expirou."
                   else err.message)) ++
                "</p><p>Verifique os logs da aplicação na DigitalOcean para mais detalhes.</p>").toList)] })),
       log ++ ["Erro no proxy (onError): " ++ err.message]) := by
  have hmsg : errorMessageOf err = "Erro interno no proxy. " ++
      (if err.code = some "ECONNREFUSED" then "A conexão com o site de destino foi recusada."
       else if err.code = some "ETIMEDOUT" then "A conexão com o site de destino expirou."
       else err.message) := by
    unfold errorMessageOf
    by_cases h1 : err.code = some "ETIMEDOUT"
    · have h2 : ¬ err.code = some "ECONNREFUSED" := by rw [h1]; decide
      rw [if_pos h1, if_neg h2, if_pos h1]
    · rw [if_neg h1]
      by_cases h2 : err.code = some "ECONNREFUSED"
      · rw [if_pos h2, if_pos h2]
      · rw [if_neg h2, if_neg h2, if_neg h1]
  cases hs : r.headersSent with
  | true => simp [onError, hs]
  | false =>
    have hw := writeHead_ok r 500 errorHeaders hs (by omega)
    simp only [onError, hs, hw, Bool.not_false, if_true]
    simp only [ServerResponse.endWith, serverErrorPage, hmsg, errorHeaders, List.append_assoc,
      List.singleton_append, Bool.false_eq_true, if_false]

/-- C9.  The `end` listener never lets an exception out.  When its `try` block
throws, the message is logged, and the 502 page, whose text contains that message,
is written exactly when `headersSent` was false; otherwise nothing is written. -/
theorem end_handler_catches (s : Session) :
    (∃ s1, onEnd s = .ok s1) ∧
    ∀ err, endTry { s with timerArmed := false } = .error err →
      onEnd s = .ok { s with
        timerArmed := false,
        log := s.log ++
          ["Erro processando resposta do proxy (onProxyRes end event): " ++ err.message],
        res := if s.res.headersSent then s.res else
          { headersSent := true,
            wire := s.res.wire ++
              [Call.writeHead 502 [("Content-Type", HeaderValue.str "text/html")],
               Call.endBody (Body.text
                 ("<h1>❌ Erro de processamento interno do proxy</h1><p>O proxy encontrou um erro ao tentar processar o conteúdo do site de destino.</p><p>Detalhes: " ++
                  err.message ++
                  "</p><p>Verifique os logs da aplicação na DigitalOcean para mais detalhes.</p>").toList)] } } := by
  constructor
  · obtain ⟨s1, h, -⟩ := onEnd_atMostOne s
    exact ⟨s1, h⟩
  · intro err h
    simp only [onEnd, h, endCatch_eq, errorHeaders, processingPage]

/-- C9 at an upstream status code that `writeHead` rejects. -/
theorem end_handler_catches_witness :
    onEnd { sessionAtEnd [("content-type", HeaderValue.str "text/html")] "<p>x</p>" with
        proxyRes := { statusCode := some 1000,
                      headers := [("content-type", HeaderValue.str "text/html")],
                      destroyed := false } } =
      .ok { url := "/",
            proxyRes := { statusCode := some 1000,
                          headers := [("content-type", HeaderValue.str "text/html")],
                          destroyed := false },
            res := { headersSent := true,
                     wire := [Call.writeHead 502 [("Content-Type", HeaderValue.str "text/html")],
                       Call.endBody (Body.text
                         ("<h1>❌ Erro de processamento interno do proxy</h1><p>O proxy encontrou um erro ao tentar processar o conteúdo do site de destino.</p><p>Detalhes: " ++
                          "Invalid status code: 1000" ++
                          "</p><p>Verifique os logs da aplicação na DigitalOcean para mais detalhes.</p>").toList)] },
            body := [60, 112, 62, 120, 60, 47, 112, 62],
            timerArmed := false,
            log := ["Erro processando resposta do proxy (onProxyRes end event): Invalid status code: 1000"] } :=
  (end_handler_catches { sessionAtEnd [("content-type", HeaderValue.str "text/html")] "<p>x</p>" with
        proxyRes := { statusCode := some 1000,
                      headers := [("content-type", HeaderValue.str "text/html")],
                      destroyed := false } }).2 ⟨"Invalid status code: 1000"⟩ rfl

end NovaPorta
